import Mathlib

/-!
Shallow embedding of the travel-destination recommender
(`app.py`: online scorer and ranking; `model_train.py`: offline hybrid
index builder), together with theorems settling the specification claims.

Python machine floats are modelled by `ℚ` (all similarity scores are exact
fractions `k / n`), Python strings by `String`, pandas data frames by
`List` of records, and NumPy matrices by `Matrix (Fin _) (Fin _) ℚ`.
-/

/-- One step of splitting a character list on commas: prepend the next
character to the current token, or start a fresh token at a comma. -/
def splitCommaStep (c : Char) (acc : List (List Char)) : List (List Char) :=
  match acc with
  | [] => [[c]]
  | cur :: rest => if c = ',' then [] :: cur :: rest else (c :: cur) :: rest

/-- Python `str.split(',')`: split on every comma; the empty string yields
`[""]`, never the empty list, exactly as in Python. -/
def splitComma (s : String) : List String :=
  (s.data.foldr splitCommaStep [[]]).map String.mk

/-- Python `str.strip()`: drop leading and trailing whitespace. -/
def pyStrip (s : String) : String :=
  String.mk (((s.data.dropWhile Char.isWhitespace).reverse.dropWhile Char.isWhitespace).reverse)

/-- Python `str.lower()` (ASCII range, which is all the catalog uses). -/
def pyLower (s : String) : String :=
  String.mk (s.data.map Char.toLower)

/-- `cat.strip().lower()` applied to one raw token. -/
def normalizeToken (s : String) : String :=
  pyLower (pyStrip s)

/-- `app.py` `calculate_similarity_score`: build the trimmed, lowercased
token sets of both arguments (Python `set` modelled as a deduplicated
list), return `0` for an empty query set, else `|Q ∩ D| / |Q|`. -/
def calculate_similarity_score (query_categories destination_categories : String) : ℚ :=
  let query_cats := ((splitComma query_categories).map normalizeToken).dedup
  let dest_cats := ((splitComma destination_categories).map normalizeToken).dedup
  if query_cats.isEmpty then 0
  else
    let common_cats := query_cats.filter (fun c => decide (c ∈ dest_cats))
    (common_cats.length : ℚ) / (query_cats.length : ℚ)

/-- A row of `Destinations.csv` after column cleanup (`PopularityScore`
present, possibly via the startup backfill). -/
structure Destination where
  Name : String
  District : String
  State : String
  Category : String
  BestTimeToVisit : String
  PopularityScore : ℚ
deriving DecidableEq, Repr

/-- A row of `Users.csv`; `UserID` is compared as a string, so it is kept
as one (only the fields that the recommender reads are modelled). -/
structure User where
  UserID : String
  TravelPreferences : String
deriving DecidableEq, Repr

/-- A recommendation record as built by the three `app.py` query modes. -/
structure Recommendation where
  Name : String
  Category : String
  District : String
  State : String
  BestTimeToVisit : String
  MatchScore : ℚ
  PopularityScore : ℚ
deriving DecidableEq, Repr

/-- Build the record appended for a candidate destination with its score. -/
def toRecommendation (score : ℚ) (d : Destination) : Recommendation :=
  ⟨d.Name, d.Category, d.District, d.State, d.BestTimeToVisit, score, d.PopularityScore⟩

/-- The order realised by Python's
`sort(key=lambda x: (x['MatchScore'], x['PopularityScore']), reverse=True)`:
`a` may precede `b` iff `(a.MatchScore, a.PopularityScore)` is
lexicographically ≥ `(b.MatchScore, b.PopularityScore)`. -/
def recKeyGe (a b : Recommendation) : Prop :=
  b.MatchScore < a.MatchScore ∨
    (a.MatchScore = b.MatchScore ∧ b.PopularityScore ≤ a.PopularityScore)

instance : DecidableRel recKeyGe := fun a b => by
  unfold recKeyGe; infer_instance

instance : IsTotal Recommendation recKeyGe where
  total a b := by
    unfold recKeyGe
    rcases lt_trichotomy a.MatchScore b.MatchScore with h | h | h
    · exact Or.inr (Or.inl h)
    · rcases le_total b.PopularityScore a.PopularityScore with hp | hp
      · exact Or.inl (Or.inr ⟨h, hp⟩)
      · exact Or.inr (Or.inr ⟨h.symm, hp⟩)
    · exact Or.inl (Or.inl h)

instance : IsTrans Recommendation recKeyGe where
  trans a b c hab hbc := by
    unfold recKeyGe at *
    rcases hab with hab | ⟨hab, hab'⟩ <;> rcases hbc with hbc | ⟨hbc, hbc'⟩
    · exact Or.inl (hbc.trans hab)
    · exact Or.inl (hbc ▸ hab)
    · exact Or.inl (hab ▸ hbc)
    · exact Or.inr ⟨hab.trans hbc, hbc'.trans hab'⟩

/-- `recommendations.sort(key=..., reverse=True)` followed by
`recommendations[:10]`; Python's sort is stable, and so is the stable
`insertionSort` used to model it. -/
def rankAndTruncate (recs : List Recommendation) : List Recommendation :=
  (recs.insertionSort recKeyGe).take 10

/-- `app.py` `get_recommendations_by_destination`: resolve the name to the
first matching row (`.iloc[0]`); if none, return `[]`; otherwise score
every other destination, keep positive scores, rank and truncate. -/
def get_recommendations_by_destination (dests : List Destination)
    (destination_name : String) : List Recommendation :=
  match dests.find? (fun d => d.Name == destination_name) with
  | none => []
  | some selected_dest =>
    rankAndTruncate <| dests.filterMap (fun dest =>
      if dest.Name ≠ destination_name then
        let score := calculate_similarity_score selected_dest.Category dest.Category
        if 0 < score then some (toRecommendation score dest) else none
      else none)

/-- `app.py` `get_recommendations_by_user`: resolve the user id by string
comparison; if none, return `[]`; otherwise score every destination
against the user's travel preferences, keep positive scores, rank,
truncate. -/
def get_recommendations_by_user (dests : List Destination) (users : List User)
    (user_id : String) : List Recommendation :=
  match users.find? (fun u => u.UserID == user_id) with
  | none => []
  | some user =>
    rankAndTruncate <| dests.filterMap (fun dest =>
      let score := calculate_similarity_score user.TravelPreferences dest.Category
      if 0 < score then some (toRecommendation score dest) else none)

/-- `app.py` `get_custom_recommendations`: optionally restrict to a state
(`if state:` — Python truthiness, so `None` and `""` both skip the
filter), then score every remaining destination against the raw
preference text, keep positive scores, rank, truncate. -/
def get_custom_recommendations (dests : List Destination) (preferences : String)
    (state : Option String) : List Recommendation :=
  let filtered_df : List Destination :=
    match state with
    | some s => if s ≠ "" then dests.filter (fun d => d.State == s) else dests
    | none => dests
  rankAndTruncate <| filtered_df.filterMap (fun dest =>
    let score := calculate_similarity_score preferences dest.Category
    if 0 < score then some (toRecommendation score dest) else none)

/-! ## Offline builder (`model_train.py`) -/

/-- Lexicographic comparison of char lists by code points, the order Python
uses to compare strings. -/
def charListLe : List Char → List Char → Bool
  | [], _ => true
  | _ :: _, [] => false
  | a :: as, b :: bs => if a = b then charListLe as bs else decide (a < b)

/-- Python `a <= b` on strings. -/
def strLe (a b : String) : Prop :=
  charListLe a.data b.data = true

instance : DecidableRel strLe := fun a b => by
  unfold strLe; infer_instance

/-- `model_train.py` `unique_preferences`: the `Category` column is first
whole-field stripped (line 25), then split on commas per row, exploded,
deduplicated, each token stripped, collected into a set, and sorted.
No lowercasing happens here. -/
def unique_preferences (dests : List Destination) : List String :=
  ((((dests.map fun d => pyStrip d.Category).flatMap splitComma).dedup.map
    pyStrip).dedup).insertionSort strLe

/-- The vocabulary the spec describes: the sorted set of *lowercase*,
whitespace-trimmed labels obtained by splitting each destination's
`Category` field on commas (stated for comparison with the source's
`unique_preferences`). -/
def uniquePreferencesSpec (dests : List Destination) : List String :=
  ((((dests.map fun d => pyStrip d.Category).flatMap splitComma).dedup.map
    normalizeToken).dedup).insertionSort strLe

/-- `model_train.py` `get_category_match_score`: 1.0 if the lowercased
preference occurs among the destination's trimmed, lowercased category
tokens, else 0.0. -/
def get_category_match_score (dest_category preference : String) : ℚ :=
  let dest_cats := (splitComma dest_category).map fun cat => pyLower (pyStrip cat)
  if pyLower preference ∈ dest_cats then 1 else 0

/-- Smallest entry of a (nonempty) matrix, `matrix.min()`. -/
def minEntry {n m : ℕ} (M : Matrix (Fin (n + 1)) (Fin (m + 1)) ℚ) : ℚ :=
  Finset.univ.inf' Finset.univ_nonempty fun p : Fin (n + 1) × Fin (m + 1) => M p.1 p.2

/-- Largest entry of a (nonempty) matrix, `matrix.max()`. -/
def maxEntry {n m : ℕ} (M : Matrix (Fin (n + 1)) (Fin (m + 1)) ℚ) : ℚ :=
  Finset.univ.sup' Finset.univ_nonempty fun p : Fin (n + 1) × Fin (m + 1) => M p.1 p.2

/-- `model_train.py` `normalize_matrix`: min-max rescale into `[0, 1]`,
guarded by `if max_val - min_val > 0`, else the matrix is returned
unchanged. -/
def normalize_matrix {n m : ℕ} (M : Matrix (Fin (n + 1)) (Fin (m + 1)) ℚ) :
    Matrix (Fin (n + 1)) (Fin (m + 1)) ℚ :=
  let min_val := minEntry M
  let max_val := maxEntry M
  if 0 < max_val - min_val then
    Matrix.of fun i j => (M i j - min_val) / (max_val - min_val)
  else M

/-- `model_train.py` lines 67–72: normalize the content-similarity and
category-match matrices independently, blend
`0.6 * content + 0.4 * (category_match @ category_match.T)`, and normalize
the blend again.  The raw TF-IDF cosine matrix is a parameter (it is
produced by an external library). -/
def hybrid_similarity {n p : ℕ} (content : Matrix (Fin (n + 1)) (Fin (n + 1)) ℚ)
    (category_match : Matrix (Fin (n + 1)) (Fin (p + 1)) ℚ) :
    Matrix (Fin (n + 1)) (Fin (n + 1)) ℚ :=
  let content_similarity := normalize_matrix content
  let category_match_matrix := normalize_matrix category_match
  normalize_matrix
    ((0.6 : ℚ) • content_similarity +
      (0.4 : ℚ) • (category_match_matrix * category_match_matrix.transpose))

/-- The formula the spec states for the hybrid index, written entrywise:
min-max normalization of
`0.6 * C'[i][j] + 0.4 * Σ_k CM'[i][k] * CM'[j][k]`
where `C'` and `CM'` are the independently normalized inputs. -/
def hybridSimilaritySpec {n p : ℕ} (content : Matrix (Fin (n + 1)) (Fin (n + 1)) ℚ)
    (category_match : Matrix (Fin (n + 1)) (Fin (p + 1)) ℚ) :
    Matrix (Fin (n + 1)) (Fin (n + 1)) ℚ :=
  normalize_matrix (Matrix.of fun i j =>
    (0.6 : ℚ) * normalize_matrix content i j +
      (0.4 : ℚ) * ∑ k, normalize_matrix category_match i k * normalize_matrix category_match j k)

/-- The token set the spec's overlap coefficient speaks about: trimmed,
lowercased comma-tokens of a raw field, as a finite set. -/
def tokenSet (s : String) : Finset String :=
  ((splitComma s).map normalizeToken).toFinset

/-! ## Basic facts about the tokenizer and the scorer -/

theorem splitCommaStep_ne_nil (c : Char) (acc : List (List Char)) :
    splitCommaStep c acc ≠ [] := by
  cases acc with
  | nil => simp [splitCommaStep]
  | cons cur rest =>
    simp only [splitCommaStep]
    split <;> simp

theorem foldr_splitCommaStep_ne_nil (l : List Char) :
    l.foldr splitCommaStep [[]] ≠ [] := by
  cases l with
  | nil => simp
  | cons c cs => exact splitCommaStep_ne_nil c _

/-- Python's `split` always returns at least one token. -/
theorem splitComma_ne_nil (s : String) : splitComma s ≠ [] := by
  unfold splitComma
  simpa using foldr_splitCommaStep_ne_nil s.data

theorem dedup_map_normalizeToken_ne_nil (s : String) :
    ((splitComma s).map normalizeToken).dedup ≠ [] := by
  intro h
  exact splitComma_ne_nil s (List.map_eq_nil_iff.mp ((List.dedup_eq_nil _).mp h))

/-- The token set of a raw field is never empty (Python's `split` yields at
least one token, possibly the empty one). -/
theorem card_tokenSet_pos (s : String) : 0 < (tokenSet s).card := by
  rw [tokenSet, List.card_toFinset]
  exact List.length_pos.mpr (dedup_map_normalizeToken_ne_nil s)

/-- Closed form of `calculate_similarity_score`: it always computes
`|Q ∩ D| / |Q|` on the trimmed, lowercased token sets (the guard for an
empty query set is dead code, because `split` never yields zero tokens). -/
theorem calculate_similarity_score_eq (q d : String) :
    calculate_similarity_score q d =
      ((tokenSet q ∩ tokenSet d).card : ℚ) / ((tokenSet q).card : ℚ) := by
  simp only [calculate_similarity_score]
  rw [if_neg (by simpa [List.isEmpty_iff] using dedup_map_normalizeToken_ne_nil q)]
  have hnodup :
      (((splitComma q).map normalizeToken).dedup.filter fun c =>
        decide (c ∈ ((splitComma d).map normalizeToken).dedup)).Nodup :=
    (List.nodup_dedup _).filter _
  have hcommon :
      (((splitComma q).map normalizeToken).dedup.filter fun c =>
        decide (c ∈ ((splitComma d).map normalizeToken).dedup)).length =
        (tokenSet q ∩ tokenSet d).card := by
    rw [← List.toFinset_card_of_nodup hnodup]
    congr 1
    ext a
    simp [tokenSet, List.mem_filter]
  rw [hcommon, tokenSet, List.card_toFinset]

/-- Self-similarity: the scorer returns `1` whenever both arguments are the
same string. -/
theorem calculate_similarity_score_self (c : String) :
    calculate_similarity_score c c = 1 := by
  rw [calculate_similarity_score_eq, Finset.inter_self]
  exact div_self (Nat.cast_ne_zero.mpr (card_tokenSet_pos c).ne')

/-- A token whose normalized form is the empty string was itself empty
after trimming. -/
theorem pyStrip_eq_empty_of_normalizeToken (t : String)
    (h : normalizeToken t = "") : pyStrip t = "" := by
  unfold normalizeToken pyLower at h
  have hdata : ((pyStrip t).data.map Char.toLower) = [] := congrArg String.data h
  exact String.ext (List.map_eq_nil_iff.mp hdata)

/-! ## Claims about the similarity primitive -/

/-- C1: for every query string and destination string whose comma-separated
tokens are each non-empty after trimming, `calculate_similarity_score`
returns `|Q ∩ D| / |Q|` for the trimmed, lowercased token sets `Q`, `D`,
and `|Q| > 0` holds under this precondition. -/
theorem overlap_coefficient_correct (q d : String)
    (hq : ∀ t ∈ splitComma q, pyStrip t ≠ "")
    (hd : ∀ t ∈ splitComma d, pyStrip t ≠ "") :
    calculate_similarity_score q d =
      ((tokenSet q ∩ tokenSet d).card : ℚ) / ((tokenSet q).card : ℚ) ∧
      0 < (tokenSet q).card :=
  ⟨calculate_similarity_score_eq q d, card_tokenSet_pos q⟩

theorem overlap_coefficient_correct_witness :
    calculate_similarity_score "Beach, Hills" "beach,City" =
      ((tokenSet "Beach, Hills" ∩ tokenSet "beach,City").card : ℚ) /
        ((tokenSet "Beach, Hills").card : ℚ) ∧
      0 < (tokenSet "Beach, Hills").card :=
  overlap_coefficient_correct "Beach, Hills" "beach,City" (by decide) (by decide)

/-- C2 counterexample: scoring an empty query string against the empty
destination string yields `1`, not `0` — Python's `"".split(",")` is
`[""]`, so the empty preference text produces the token set `{""}`, which
matches any destination whose token list contains an empty token. -/
theorem empty_query_nonzero_on_empty_destination :
    calculate_similarity_score "" "" = 1 ∧ (1 : ℚ) ≠ 0 :=
  ⟨calculate_similarity_score_self "", one_ne_zero⟩

/-- C2 (amended): empty preference text yields zero similarity against
every destination string all of whose comma tokens are non-empty after
trimming (against a destination with an empty-after-trimming token the
empty query scores `1` instead, see the counterexample). -/
theorem empty_query_scores_zero (d : String)
    (hd : ∀ t ∈ splitComma d, pyStrip t ≠ "") :
    calculate_similarity_score "" d = 0 := by
  rw [calculate_similarity_score_eq]
  have hinter : tokenSet "" ∩ tokenSet d = ∅ := by
    rw [Finset.eq_empty_iff_forall_not_mem]
    intro a ha
    rw [Finset.mem_inter] at ha
    obtain ⟨h1, h2⟩ := ha
    have ha' : a = "" := by
      have : a ∈ (["" ].map normalizeToken).toFinset := h1
      simpa [normalizeToken, pyStrip, pyLower] using this
    subst ha'
    rw [tokenSet, List.mem_toFinset, List.mem_map] at h2
    obtain ⟨t, ht, hteq⟩ := h2
    exact hd t ht (pyStrip_eq_empty_of_normalizeToken t hteq)
  rw [hinter]
  simp

theorem empty_query_scores_zero_witness :
    calculate_similarity_score "" "beach" = 0 :=
  empty_query_scores_zero "beach" (by decide)

/-- C9: for every category string whose token set is non-empty,
self-similarity under the overlap coefficient is maximal:
`calculate_similarity_score c c = 1`. -/
theorem self_similarity_maximal (c : String) (h : (tokenSet c).Nonempty) :
    calculate_similarity_score c c = 1 :=
  calculate_similarity_score_self c

theorem self_similarity_maximal_witness :
    calculate_similarity_score "beach" "beach" = 1 :=
  self_similarity_maximal "beach" ⟨"beach", by decide⟩

/-! ## Claims about ranking and truncation -/

/-- The common ranking step always produces a list sorted non-increasing
in the lexicographic key `(MatchScore, PopularityScore)`. -/
theorem pairwise_rankAndTruncate (recs : List Recommendation) :
    (rankAndTruncate recs).Pairwise recKeyGe :=
  List.Pairwise.sublist (List.take_sublist 10 _)
    (List.sorted_insertionSort recKeyGe recs)

/-- The common ranking step never returns more than 10 records. -/
theorem length_rankAndTruncate_le (recs : List Recommendation) :
    (rankAndTruncate recs).length ≤ 10 :=
  List.length_take_le 10 _

/-- C3: in every query mode and for every catalog, the returned
recommendation list is sorted non-increasing lexicographically by
`(MatchScore, PopularityScore)` — match score primary, popularity the
tie-break, both descending. -/
theorem recommendations_sorted (dests : List Destination) (users : List User)
    (destination_name user_id preferences : String) (state : Option String) :
    (get_recommendations_by_destination dests destination_name).Pairwise recKeyGe ∧
    (get_recommendations_by_user dests users user_id).Pairwise recKeyGe ∧
    (get_custom_recommendations dests preferences state).Pairwise recKeyGe := by
  refine ⟨?_, ?_, ?_⟩
  · unfold get_recommendations_by_destination
    cases dests.find? (fun d => d.Name == destination_name) with
    | none => simp
    | some selected_dest => exact pairwise_rankAndTruncate _
  · unfold get_recommendations_by_user
    cases users.find? (fun u => u.UserID == user_id) with
    | none => simp
    | some user => exact pairwise_rankAndTruncate _
  · exact pairwise_rankAndTruncate _

/-- C4: in every query mode and for every catalog, the returned
recommendation list has length at most 10. -/
theorem recommendations_length_le_ten (dests : List Destination) (users : List User)
    (destination_name user_id preferences : String) (state : Option String) :
    (get_recommendations_by_destination dests destination_name).length ≤ 10 ∧
    (get_recommendations_by_user dests users user_id).length ≤ 10 ∧
    (get_custom_recommendations dests preferences state).length ≤ 10 := by
  refine ⟨?_, ?_, ?_⟩
  · unfold get_recommendations_by_destination
    cases dests.find? (fun d => d.Name == destination_name) with
    | none => simp
    | some selected_dest => exact length_rankAndTruncate_le _
  · unfold get_recommendations_by_user
    cases users.find? (fun u => u.UserID == user_id) with
    | none => simp
    | some user => exact length_rankAndTruncate_le _
  · exact length_rankAndTruncate_le _

/-- C5: an unresolved destination name or user id (string-compared) makes
the corresponding query mode return the empty list rather than raising. -/
theorem unresolved_identifiers_empty (dests : List Destination) (users : List User)
    (destination_name user_id : String)
    (hdest : ∀ d ∈ dests, d.Name ≠ destination_name)
    (huser : ∀ u ∈ users, u.UserID ≠ user_id) :
    get_recommendations_by_destination dests destination_name = [] ∧
    get_recommendations_by_user dests users user_id = [] := by
  constructor
  · unfold get_recommendations_by_destination
    rw [List.find?_eq_none.mpr (by simpa using hdest)]
  · unfold get_recommendations_by_user
    rw [List.find?_eq_none.mpr (by simpa using huser)]

theorem unresolved_identifiers_empty_witness :
    get_recommendations_by_destination
        [⟨"Agra", "Agra", "UP", "Historical", "Winter", 9/10⟩] "Nonexistent" = [] ∧
    get_recommendations_by_user
        [⟨"Agra", "Agra", "UP", "Historical", "Winter", 9/10⟩]
        [⟨"1", "Historical,Beach"⟩] "999" = [] :=
  unresolved_identifiers_empty _ _ "Nonexistent" "999" (by decide) (by decide)

/-- C10: passing `None` or the empty string as the state argument of
`get_custom_recommendations` disables the region filter entirely — the
result is the same as with no state filter, every destination in the
catalog being considered as a candidate. -/
theorem empty_state_disables_filter (dests : List Destination) (preferences : String) :
    get_custom_recommendations dests preferences (some "") =
      get_custom_recommendations dests preferences none ∧
    get_custom_recommendations dests preferences none =
      rankAndTruncate (dests.filterMap (fun dest =>
        let score := calculate_similarity_score preferences dest.Category
        if 0 < score then some (toRecommendation score dest) else none)) :=
  ⟨rfl, rfl⟩

/-! ## Claims about the offline builder -/

theorem minEntry_le_maxEntry {n m : ℕ} (M : Matrix (Fin (n + 1)) (Fin (m + 1)) ℚ) :
    minEntry M ≤ maxEntry M := by
  unfold minEntry maxEntry
  exact le_trans
    (Finset.inf'_le (fun p : Fin (n + 1) × Fin (m + 1) => M p.1 p.2)
      (Finset.mem_univ (0, 0)))
    (Finset.le_sup' (fun p : Fin (n + 1) × Fin (m + 1) => M p.1 p.2)
      (Finset.mem_univ (0, 0)))

/-- C8: `normalize_matrix` returns the matrix unchanged when its maximum
entry equals its minimum entry (the division is guarded, never performed
with a zero denominator), and otherwise rescales every entry by
`(x - min) / (max - min)`. -/
theorem normalize_matrix_spec (n m : ℕ) (M : Matrix (Fin (n + 1)) (Fin (m + 1)) ℚ) :
    normalize_matrix M =
      if maxEntry M = minEntry M then M
      else Matrix.of fun i j => (M i j - minEntry M) / (maxEntry M - minEntry M) := by
  simp only [normalize_matrix]
  by_cases h : maxEntry M = minEntry M
  · rw [if_neg (by simp [h] : ¬(0 : ℚ) < maxEntry M - minEntry M), if_pos h]
  · rw [if_pos (sub_pos.mpr ((minEntry_le_maxEntry M).lt_of_ne (Ne.symm h))), if_neg h]

/-- C6: the builder's hybrid index is the min-max normalization of
`0.6 · ContentSimilarity' + 0.4 · (CategoryMatch' · CategoryMatch'ᵗ)`,
where the primed matrices are the independently min-max-normalized
inputs — stated entrywise, exactly as the spec phrases it. -/
theorem hybrid_similarity_spec_eq (n p : ℕ)
    (content : Matrix (Fin (n + 1)) (Fin (n + 1)) ℚ)
    (category_match : Matrix (Fin (n + 1)) (Fin (p + 1)) ℚ) :
    hybrid_similarity content category_match =
      hybridSimilaritySpec content category_match := by
  unfold hybrid_similarity hybridSimilaritySpec
  congr 1

theorem charListLe_total : ∀ as bs : List Char,
    charListLe as bs = true ∨ charListLe bs as = true
  | [], _ => Or.inl rfl
  | _ :: _, [] => Or.inr rfl
  | a :: as, b :: bs => by
    by_cases h : a = b
    · subst h
      simpa only [charListLe, if_pos rfl] using charListLe_total as bs
    · rcases lt_or_gt_of_ne h with hlt | hgt
      · exact Or.inl (by simp [charListLe, h, hlt])
      · exact Or.inr (by simp [charListLe, Ne.symm h, hgt])

theorem charListLe_trans : ∀ as bs cs : List Char,
    charListLe as bs = true → charListLe bs cs = true → charListLe as cs = true
  | [], _, _, _, _ => rfl
  | _ :: _, [], _, h, _ => by simp [charListLe] at h
  | _ :: _, _ :: _, [], _, h => by simp [charListLe] at h
  | a :: as, b :: bs, c :: cs, h1, h2 => by
    simp only [charListLe] at h1 h2 ⊢
    by_cases hab : a = b <;> by_cases hbc : b = c
    · subst hab; subst hbc
      rw [if_pos rfl] at h1 h2 ⊢
      exact charListLe_trans as bs cs h1 h2
    · subst hab
      rw [if_pos rfl] at h1
      rw [if_neg hbc] at h2 ⊢
      exact h2
    · subst hbc
      rw [if_neg hab] at h1 ⊢
      exact h1
    · rw [if_neg hab, decide_eq_true_eq] at h1
      rw [if_neg hbc, decide_eq_true_eq] at h2
      have hac : a < c := h1.trans h2
      rw [if_neg (ne_of_lt hac), decide_eq_true_eq]
      exact hac

instance : IsTotal String strLe where
  total a b := charListLe_total a.data b.data

instance : IsTrans String strLe where
  trans a b c := charListLe_trans a.data b.data c.data

/-- C7 counterexample: the builder's vocabulary keeps the original case.
For the one-destination catalog with `Category = "Beach"`,
`unique_preferences` yields `["Beach"]` while the spec's lowercasing
normalizer would give `["beach"]`. -/
theorem category_vocabulary_not_lowercased :
    unique_preferences [⟨"X", "D", "S", "Beach", "T", 1⟩] = ["Beach"] ∧
    uniquePreferencesSpec [⟨"X", "D", "S", "Beach", "T", 1⟩] = ["beach"] ∧
    unique_preferences [⟨"X", "D", "S", "Beach", "T", 1⟩] ≠
      uniquePreferencesSpec [⟨"X", "D", "S", "Beach", "T", 1⟩] := by
  refine ⟨?_, ?_, ?_⟩ <;> decide

/-- C7 (amended): the builder's `CategoryVocabulary` is the sorted,
duplicate-free list of the *whitespace-trimmed but case-preserved* labels
obtained by splitting each destination's `Category` field on commas; the
builder applies no lowercasing (lowercasing happens only at match time in
`get_category_match_score`). -/
theorem category_vocabulary_trimmed_sorted (dests : List Destination) :
    (unique_preferences dests).Pairwise strLe ∧
    (unique_preferences dests).Nodup ∧
    ∀ s, s ∈ unique_preferences dests ↔
      ∃ d ∈ dests, ∃ t ∈ splitComma (pyStrip d.Category), s = pyStrip t := by
  refine ⟨List.sorted_insertionSort strLe _, ?_, ?_⟩
  · exact ((List.perm_insertionSort strLe _).nodup_iff).mpr (List.nodup_dedup _)
  · intro s
    unfold unique_preferences
    rw [List.mem_insertionSort, List.mem_dedup, List.mem_map]
    constructor
    · rintro ⟨t, ht, rfl⟩
      rw [List.mem_dedup, List.mem_flatMap] at ht
      obtain ⟨c, hc, htc⟩ := ht
      rw [List.mem_map] at hc
      obtain ⟨d, hd, rfl⟩ := hc
      exact ⟨d, hd, t, htc, rfl⟩
    · rintro ⟨d, hd, t, ht, rfl⟩
      refine ⟨t, ?_, rfl⟩
      rw [List.mem_dedup, List.mem_flatMap]
      exact ⟨pyStrip d.Category, List.mem_map_of_mem _ hd, ht⟩
